import Mathlib

/-!
Shallow embedding of the config-mangler expansion/mutation engine
(`src/processing.rs`) and verification of the specification claims.

Strings are modelled as lists of characters (`Str`).  Rust panics are
modelled as `Except.error`.  The mutually recursive expansion functions
(`expand`, `expand_string`, `lookup`) receive an explicit fuel argument:
the Rust code can genuinely diverge on cyclic variable definitions, and
fuel keeps every definition structurally recursive and kernel-computable.
Exhausted fuel is the distinguished error "out of fuel".
-/

namespace ConfigMangler

abbrev Str := List Char

/-- The document model of `serde_yaml::Value` as used by `processing.rs`:
null, bool, number, string, sequence, mapping (insertion ordered), plus
the tagged node kind that the expander rejects.  Numbers are modelled as
integers (the claims do not involve floating point). -/
inductive Value where
  | null : Value
  | bool (b : Bool) : Value
  | number (n : Int) : Value
  | str (s : Str) : Value
  | seq (l : List Value) : Value
  | mapping (m : List (Value × Value)) : Value
  | tagged : Value

mutual
/-- Structural equality of `Value`s, mirroring `serde_yaml::Value`'s
`PartialEq`, used for mapping-key comparisons. -/
def valueBeq : Value → Value → Bool
  | .null, .null => true
  | .bool a, .bool b => a == b
  | .number a, .number b => a == b
  | .str a, .str b => a == b
  | .seq a, .seq b => valueBeqL a b
  | .mapping a, .mapping b => valueBeqP a b
  | .tagged, .tagged => true
  | _, _ => false
def valueBeqL : List Value → List Value → Bool
  | [], [] => true
  | a :: l, b :: m => valueBeq a b && valueBeqL l m
  | _, _ => false
def valueBeqP : List (Value × Value) → List (Value × Value) → Bool
  | [], [] => true
  | (k, v) :: l, (k', v') :: m => valueBeq k k' && valueBeq v v' && valueBeqP l m
  | _, _ => false
end

/-- Modelled from the spec: `string_value` lives in the repository's
`variable_definitions` module, which is not among the given sources.  The
spec says the expander sorts entries "by the textual representation of the
expanded key" and that the text entry point rejects a "non-string value",
so `string_value` extracts the character content of a String node and
yields nothing for every other node kind. -/
def string_value : Value → Option Str
  | .str s => some s
  | _ => none

/-- The `sort_by_key` key: `Option<String>` with Rust's derived order,
`None` below every `Some` and strings compared lexicographically, which is
exactly `WithBot (List Char)`. -/
def sortKey (k : Value) : WithBot Str :=
  match string_value k with
  | none => ⊥
  | some s => (s : WithBot Str)

/-- Comparison used to sort mapping entries: by `string_value` of the
(already expanded) key. -/
def entryLe (p q : Value × Value) : Bool :=
  decide (sortKey p.1 ≤ sortKey q.1)

/-- Stable insertion step of insertion sort. -/
def ordInsert (le : α → α → Bool) (a : α) : List α → List α
  | [] => [a]
  | b :: l => if le a b then a :: b :: l else b :: ordInsert le a l

/-- Stable insertion sort, the behaviour of Rust's stable `sort_by_key`. -/
def insSort (le : α → α → Bool) : List α → List α
  | [] => []
  | a :: l => ordInsert le a (insSort le l)

/-- Effectful map over a list in the `Except` monad: the translation of a
Rust iterator `map` whose closure may panic. -/
def mapME (f : α → Except String β) : List α → Except String (List β)
  | [] => .ok []
  | a :: l =>
    match f a with
    | .error e => .error e
    | .ok b =>
      match mapME f l with
      | .error e => .error e
      | .ok bs => .ok (b :: bs)

/-- Modelled from the spec: `MutationAction` is declared in the missing
`variable_definitions` module.  Its shape — `Add(path, Value)`,
`Remove(path)`, `Replace(path, Value)` with a path of mapping keys — is
pinned down by the spec's data model and by the patterns matched in
`apply_mutation`. -/
inductive MutationAction where
  | add (path : List Str) (v : Value) : MutationAction
  | remove (path : List Str) : MutationAction
  | replace (path : List Str) (v : Value) : MutationAction

/-- Modelled from the spec: a mutation record pairs a file-name pattern
(matched by exact equality) with an action. -/
structure Mutation where
  filename_pattern : Str
  action : MutationAction

/-- Modelled from the spec: the definition source holds a map from
reference name to value (keys unique, here an association list) plus an
ordered list of mutation records. -/
structure VariableSource where
  definitions : List (Str × Value)
  mutations : List Mutation

/-- The `Environment` of `processing.rs`: definition source plus the list of
reference-name prefixes whose lookups are deferred to runtime. -/
structure Environment where
  definitions : VariableSource
  expected_runtime_lookup_prefixes : List Str

/-- Lookup in the definition map (`definitions.get(reference_name)`). -/
def defsGet (defs : List (Str × Value)) (name : Str) : Option Value :=
  match defs with
  | [] => none
  | (k, v) :: rest => if k = name then some v else defsGet rest name

/-- Index of the right-most '/' in a string (`str::rfind('/')`). -/
def lastSlashIdx : Str → Option Nat
  | [] => none
  | c :: rest =>
    match lastSlashIdx rest with
    | some i => some (i + 1)
    | none => if c = '/' then some 0 else none

/-- The private `_lookup` of `processing.rs`: exact lookup, and on a miss
the wildcard fallback — truncate the trailing two characters, find the
right-most '/' in the remainder, retry with (prefix up to it) ++ "/*".
A missing name shorter than two characters makes the Rust string slice
`reference_name[..reference_name.len() - 2]` panic (index underflow),
modelled as the error "byte index out of bounds".  The recursion shrinks
the name, so the fuel is only a device to keep the definition structural;
`_lookup_fuel_irrel` below shows any fuel above the name length is enough. -/
def _lookup : Nat → Str → Environment → Except String (Option Value)
  | 0, _, _ => .error "out of fuel"
  | fuel + 1, name, env =>
    match defsGet env.definitions.definitions name with
    | some v => .ok (some v)
    | none =>
      if name.length < 2 then .error "byte index out of bounds"
      else
        match lastSlashIdx (name.take (name.length - 2)) with
        | none => .ok none
        | some i => _lookup fuel (name.take i ++ ['/', '*']) env

/-- Does the name start with one of `expected_runtime_lookup_prefixes`? -/
def isRuntimeName (name : Str) (env : Environment) : Bool :=
  env.expected_runtime_lookup_prefixes.any (fun p => p.isPrefixOf name)

/-- Does the name end with "/json"? -/
def endsJson (name : Str) : Bool :=
  "/json".data.isSuffixOf name

/-
The reference-token patterns of `processing.rs`:
  VAR_SUBSTITUTION_PATTERN = \(\(\s*([^) ]*?)\s*\)\)
  FULL_MATCH_PATTERN       = \A\s*\(\(\s*([^) ]*?)\s*\)\)\s*\z
They are modelled by direct recursive matchers.  Backtracking never plays
a role: every `\s*` is followed by a non-whitespace literal (`(` or `)`)
or by an anchor, so the greedy `\s*` is deterministic, and the lazy
capture group is realised by trying to close before consuming a character.
-/

/-- Unicode White_Space, the `\s` class of the regex crate. -/
def isWs (c : Char) : Bool :=
  c.toNat = 9 || c.toNat = 10 || c.toNat = 11 || c.toNat = 12 || c.toNat = 13 ||
  c.toNat = 32 || c.toNat = 133 || c.toNat = 160 || c.toNat = 5760 ||
  (8192 ≤ c.toNat && c.toNat ≤ 8202) || c.toNat = 8232 || c.toNat = 8233 ||
  c.toNat = 8239 || c.toNat = 8287 || c.toNat = 12288

/-- The token-name character class `[^) ]`: anything but ')' and the
ASCII space. -/
def nameChar (c : Char) : Bool :=
  !(c = ')' || c = ' ')

/-- Attempt to match `\s*\)\)` at the head, returning the rest. -/
def tryCloseVar (l : Str) : Option Str :=
  match l.dropWhile isWs with
  | ')' :: ')' :: rest => some rest
  | _ => none

/-- Lazy capture `([^) ]*?)\s*\)\)`: close as early as possible, else
consume one name character. -/
def nameLoopVar (l : Str) : Option (Str × Str) :=
  match tryCloseVar l with
  | some rest => some ([], rest)
  | none =>
    match l with
    | [] => none
    | c :: r =>
      if nameChar c then
        match nameLoopVar r with
        | some (nm, rest) => some (c :: nm, rest)
        | none => none
      else none

/-- Attempt `\(\(\s*([^) ]*?)\s*\)\)` at this exact position, returning
the captured name and the rest of the input. -/
def matchVarAt : Str → Option (Str × Str)
  | '(' :: '(' :: r => nameLoopVar (r.dropWhile isWs)
  | _ => none

/-- Left-most match of the substitution pattern: `(text before the match,
captured name, text after the match)`. -/
def findTok : Str → Option (Str × Str × Str)
  | [] => none
  | c :: rest =>
    match matchVarAt (c :: rest) with
    | some (name, after) => some ([], name, after)
    | none =>
      match findTok rest with
      | some (pre, name, after) => some (c :: pre, name, after)
      | none => none

/-- Attempt to match `\s*\)\)\s*\z` at the head. -/
def tryCloseFull (l : Str) : Bool :=
  match l.dropWhile isWs with
  | ')' :: ')' :: rest => (rest.dropWhile isWs).isEmpty
  | _ => false

/-- Lazy capture for the anchored pattern. -/
def nameLoopFull (l : Str) : Option Str :=
  if tryCloseFull l then some []
  else
    match l with
    | [] => none
    | c :: r =>
      if nameChar c then
        match nameLoopFull r with
        | some nm => some (c :: nm)
        | none => none
      else none

/-- Match of `FULL_MATCH_PATTERN` against the whole string, returning the
captured name. -/
def parseFull (s : Str) : Option Str :=
  match s.dropWhile isWs with
  | '(' :: '(' :: r => nameLoopFull (r.dropWhile isWs)
  | _ => none

/-- Decimal text of an integer, the `format!` / serializer rendering of a
`serde_yaml` integer number. -/
def intText (n : Int) : Str :=
  (toString n).data

/-- Left brace character (avoiding a brace literal). -/
def lbrace : Char := Char.ofNat 123

/-- Right brace character. -/
def rbrace : Char := Char.ofNat 125

/-- Hexadecimal digit (lowercase), for JSON control-character escapes. -/
def hexDigit (n : Nat) : Char :=
  if n < 10 then Char.ofNat (48 + n) else Char.ofNat (87 + n)

/-- JSON escaping of one character (canonical form: the two-character
escapes for quote, backslash and the common controls, `\u00xx` for the
remaining controls). -/
def jsonEscapeChar (c : Char) : Str :=
  if c = '"' then ['\\', '"']
  else if c = '\\' then ['\\', '\\']
  else if c.toNat = 8 then ['\\', 'b']
  else if c.toNat = 9 then ['\\', 't']
  else if c.toNat = 10 then ['\\', 'n']
  else if c.toNat = 12 then ['\\', 'f']
  else if c.toNat = 13 then ['\\', 'r']
  else if c.toNat < 32 then
    ['\\', 'u', '0', '0', hexDigit (c.toNat / 16), hexDigit (c.toNat % 16)]
  else [c]

/-- A JSON string literal: quote, escaped content, quote. -/
def jsonQuote (s : Str) : Str :=
  '"' :: (s.flatMap jsonEscapeChar) ++ ['"']

/-- Comma-joined concatenation. -/
def joinComma : List Str → Str
  | [] => []
  | [s] => s
  | s :: rest => s ++ ',' :: joinComma rest

/-- Modelled from the spec: the JSON map-key rendering of the external
`serde_json`/`json_canon` collaborators.  String keys are taken verbatim,
integer keys become their decimal text, and any other key kind is a fatal
"key must be a string" error. -/
def jsonKeyStr : Value → Except String Str
  | .str s => .ok s
  | .number n => .ok (intText n)
  | _ => .error "key must be a string"

/-- Key order of canonical JSON: lexicographic on the rendered key text. -/
def jsonKeyLe (p q : Str × Value) : Bool :=
  decide (p.1 ≤ q.1)

/-- Modelled from the spec: canonical JSON text of a value — minimal
encoding, no insignificant whitespace, object keys sorted — as produced by
`json_canon::to_string(&serde_json::to_value(..))`.  Fuel keeps the nested
recursion structural; the claims only evaluate it on small inputs. -/
def jsonCanon : Nat → Value → Except String Str
  | 0, _ => .error "out of fuel"
  | fuel + 1, v =>
    match v with
    | .null => .ok "null".data
    | .bool true => .ok "true".data
    | .bool false => .ok "false".data
    | .number n => .ok (intText n)
    | .str s => .ok (jsonQuote s)
    | .seq l =>
      match mapME (fun c => jsonCanon fuel c) l with
      | .error e => .error e
      | .ok parts => .ok ('[' :: joinComma parts ++ [']'])
    | .mapping m =>
      match mapME (fun kv =>
          match jsonKeyStr kv.1 with
          | .error e => .error e
          | .ok k => .ok (k, kv.2)) m with
      | .error e => .error e
      | .ok keyed =>
        match mapME (fun kv =>
            match jsonCanon fuel kv.2 with
            | .error e => .error e
            | .ok t => .ok (jsonQuote kv.1 ++ ':' :: t)) (insSort jsonKeyLe keyed) with
        | .error e => .error e
        | .ok entries => .ok (lbrace :: joinComma entries ++ [rbrace])
    | .tagged => .error "cannot serialize tagged value"

/-- Token text `(( name ))` as rebuilt by the substitution closure's
`format!` (note: single spaces, regardless of the original spelling). -/
def tokenText (name : Str) : Str :=
  '(' :: '(' :: ' ' :: name ++ ' ' :: ')' :: [')']

/-- The body of the `replace_all` closure in `expand_string`: how one
resolved (or deferred) reference is rendered inside surrounding text. -/
def interpolate (name : Str) : Option Value → Except String Str
  | none => .ok (tokenText name)
  | some (.number n) => .ok (intText n)
  | some (.str t) => .ok t
  | some _ => .error "Attempted to interpolate non-string value"

mutual
/-- Function `expand` of `processing.rs`: structural walk of the document.
Scalars pass through, strings go to `expand_string`, sequences map,
mappings expand their keys, stably sort the entries by `string_value` of
the expanded key, then expand the values; tagged nodes are fatal. -/
def expand : Nat → Value → Environment → Except String Value
  | 0, _, _ => .error "out of fuel"
  | fuel + 1, v, env =>
    match v with
    | .null => .ok .null
    | .bool b => .ok (.bool b)
    | .number n => .ok (.number n)
    | .str s => expand_string fuel s env
    | .seq l =>
      match mapME (fun c => expand fuel c env) l with
      | .error e => .error e
      | .ok l' => .ok (.seq l')
    | .mapping m =>
      match mapME (fun kv =>
          match expand fuel kv.1 env with
          | .error e => .error e
          | .ok k' => .ok (k', kv.2)) m with
      | .error e => .error e
      | .ok keyed =>
        match mapME (fun kv =>
            match expand fuel kv.2 env with
            | .error e => .error e
            | .ok v' => .ok (kv.1, v')) (insSort entryLe keyed) with
        | .error e => .error e
        | .ok done => .ok (.mapping done)
    | .tagged => .error "what the fuck is this?"

/-- Function `expand_string` of `processing.rs`: a full-match token is looked up
and replaces the string wholesale (`unwrap_or` keeps the original string
when the lookup succeeds with no value); otherwise every embedded token is
substituted via `substAll`. -/
def expand_string : Nat → Str → Environment → Except String Value
  | 0, _, _ => .error "out of fuel"
  | fuel + 1, s, env =>
    match parseFull s with
    | some name =>
      match lookup fuel name env with
      | .error e => .error e
      | .ok none => .ok (.str s)
      | .ok (some v) => .ok v
    | none =>
      match substAll fuel s env with
      | .error e => .error e
      | .ok t => .ok (.str t)

/-- The `replace_all` loop: substitute every match of the substitution
pattern, left to right, leaving the surrounding text untouched. -/
def substAll : Nat → Str → Environment → Except String Str
  | 0, _, _ => .error "out of fuel"
  | fuel + 1, s, env =>
    match findTok s with
    | none => .ok s
    | some (pre, name, rest) =>
      match lookup fuel name env with
      | .error e => .error e
      | .ok r =>
        match interpolate name r with
        | .error e => .error e
        | .ok rep =>
          match substAll fuel rest env with
          | .error e => .error e
          | .ok tail => .ok (pre ++ rep ++ tail)

/-- Function `lookup` of `processing.rs`: `_lookup`, then the runtime-prefix
handling of a miss, then either the `/json` canonicalization or a
recursive expansion of the found value.  (The warning print on a
hardcoded runtime value has no effect on the result; `runtimeWarning`
below captures when it fires.) -/
def lookup : Nat → Str → Environment → Except String (Option Value)
  | 0, _, _ => .error "out of fuel"
  | fuel + 1, name, env =>
    match _lookup (name.length + 1) name env with
    | .error e => .error e
    | .ok none =>
      if isRuntimeName name env then .ok none
      else .error "Couldn't find definition"
    | .ok (some val) =>
      if endsJson name then
        match expand fuel val env with
        | .error e => .error e
        | .ok (.mapping m) =>
          match jsonCanon fuel (.mapping m) with
          | .error e => .error e
          | .ok s => .ok (some (.str s))
        | .ok (.str s) => .ok (some (.str s))
        | .ok _ => .error "Received non-mapping value for /json conversion"
      else
        match expand fuel val env with
        | .error e => .error e
        | .ok v => .ok (some v)
end

/-- True exactly when the Rust code prints the non-fatal
"Runtime value was unexpectedly hardcoded" warning for this name: the name
is runtime-deferred yet `_lookup` finds a value. -/
def runtimeWarning (name : Str) (env : Environment) : Bool :=
  isRuntimeName name env &&
    (match _lookup (name.length + 1) name env with
     | .ok (some _) => true
     | _ => false)

/-- Mapping lookup by key value (`serde_yaml::Mapping::get`). -/
def mapGet (m : List (Value × Value)) (k : Value) : Option Value :=
  match m with
  | [] => none
  | (k', v') :: rest => if valueBeq k' k then some v' else mapGet rest k

/-- Mapping insert (`serde_yaml::Mapping::insert`, IndexMap semantics):
replace in place keeping the original key and position, returning the old
value, or append at the end. -/
def mapInsert (m : List (Value × Value)) (k v : Value) :
    List (Value × Value) × Option Value :=
  match m with
  | [] => ([(k, v)], none)
  | (k', v') :: rest =>
    if valueBeq k' k then ((k', v) :: rest, some v')
    else
      match mapInsert rest k v with
      | (m', old) => ((k', v') :: m', old)

/-- Replace the value at an existing key (used when writing back a
navigated-to child). -/
def mapSet (m : List (Value × Value)) (k v : Value) : List (Value × Value) :=
  (mapInsert m k v).1

/-- Index of the first entry with the given key. -/
def removeIdx : List (Value × Value) → Value → Option Nat
  | [], _ => none
  | (k', _) :: rest, k =>
    if valueBeq k' k then some 0
    else
      match removeIdx rest k with
      | some i => some (i + 1)
      | none => none

/-- Mapping remove (`serde_yaml::Mapping::remove`, swap-remove semantics):
the removed slot is filled with the last entry. -/
def swapRemove (m : List (Value × Value)) (k : Value) :
    List (Value × Value) × Option Value :=
  match removeIdx m k with
  | none => (m, none)
  | some i =>
    ((m.set i (m.getLastD (.null, .null))).dropLast,
     some (m.getD i (.null, .null)).2)

/-- The Add-of-a-Mapping loop: insert every new entry, failing when an
inserted key already had a value (`Add` never overwrites). -/
def insertAll (cur : List (Value × Value)) :
    List (Value × Value) → Except String (List (Value × Value))
  | [] => .ok cur
  | (k, v) :: rest =>
    match mapInsert cur k v with
    | (_, some _) => .error "Already had value"
    | (cur', none) => insertAll cur' rest

/-- The `Navigate` trait: strict traversal — an empty path yields the
node itself, otherwise the node must be a Mapping containing the segment
(fatal otherwise). -/
def navigate (content : Value) (path : List Str) : Except String Value :=
  match path with
  | [] => .ok content
  | seg :: rest =>
    match content with
    | .mapping m =>
      match mapGet m (.str seg) with
      | none => .error "WTF, regarding missing value"
      | some next => navigate next rest
    | _ => .error "not a mapping"

/-- Functional rendering of navigating to a `&mut Value` and mutating it:
apply `f` to the node at `path` and write the result back. -/
def updateAt (content : Value) (path : List Str)
    (f : Value → Except String Value) : Except String Value :=
  match path with
  | [] => f content
  | seg :: rest =>
    match content with
    | .mapping m =>
      match mapGet m (.str seg) with
      | none => .error "WTF, regarding missing value"
      | some next =>
        match updateAt next rest f with
        | .error e => .error e
        | .ok next' => .ok (.mapping (mapSet m (.str seg) next'))
    | _ => .error "not a mapping"

/-- Function `apply_mutation` of `processing.rs`.  Add of a Mapping merges into a
Mapping target without overwriting; Add of a Sequence appends to a
Sequence target; Add of anything else is fatal; Remove deletes an existing
final key from the parent Mapping; Replace overwrites an existing final
key.  (The Rust `path[..len - 1]` / `path[len - 1]` of Remove/Replace
panics on an empty path; modelled as "index out of bounds".) -/
def apply_mutation (mutation : MutationAction) (content : Value) :
    Except String Value :=
  match mutation with
  | .add path (.mapping newEntries) =>
    updateAt content path (fun target =>
      match target with
      | .mapping cur =>
        match insertAll cur newEntries with
        | .error e => .error e
        | .ok cur' => .ok (.mapping cur')
      | _ => .error "urm")
  | .add path (.seq newElems) =>
    updateAt content path (fun target =>
      match target with
      | .seq cur => .ok (.seq (cur ++ newElems))
      | _ => .error "urm")
  | .add _ _ => .error "Add mutation is trying to add non-mapping, non-sequence values"
  | .remove path =>
    match path.getLast? with
    | none => .error "index out of bounds"
    | some last =>
      updateAt content path.dropLast (fun parent =>
        match parent with
        | .mapping cur =>
          match swapRemove cur (.str last) with
          | (_, none) => .error "can't remove missing"
          | (cur', some _) => .ok (.mapping cur')
        | _ => .error "not a mapping")
  | .replace path v =>
    match path.getLast? with
    | none => .error "index out of bounds"
    | some last =>
      updateAt content path.dropLast (fun parent =>
        match parent with
        | .mapping cur =>
          match mapInsert cur (.str last) v with
          | (_, none) => .error "Value to replace did not exist"
          | (cur', some _) => .ok (.mapping cur')
        | _ => .error "not a mapping")

mutual
/-- A document contains no reference token: every string is free of
matches of the substitution pattern (and hence of the anchored full
pattern), and no tagged node occurs (the spec's document model has no
tagged kind; the expander rejects it). -/
def tokenFree : Value → Bool
  | .null => true
  | .bool _ => true
  | .number _ => true
  | .str s => (findTok s).isNone && (parseFull s).isNone
  | .seq l => tokenFreeL l
  | .mapping m => tokenFreeP m
  | .tagged => false
def tokenFreeL : List Value → Bool
  | [] => true
  | v :: l => tokenFree v && tokenFreeL l
def tokenFreeP : List (Value × Value) → Bool
  | [] => true
  | (k, v) :: l => tokenFree k && tokenFree v && tokenFreeP l
end

mutual
/-- The identity up to the deterministic re-sorting of mapping entries by
`string_value` of the key, recursively at every level. -/
def sortOnly : Value → Value
  | .null => .null
  | .bool b => .bool b
  | .number n => .number n
  | .str s => .str s
  | .seq l => .seq (sortOnlyL l)
  | .mapping m => .mapping (insSort entryLe (sortOnlyP m))
  | .tagged => .tagged
def sortOnlyL : List Value → List Value
  | [] => []
  | v :: l => sortOnly v :: sortOnlyL l
def sortOnlyP : List (Value × Value) → List (Value × Value)
  | [] => []
  | (k, v) :: l => (sortOnly k, sortOnly v) :: sortOnlyP l
end

mutual
/-- Fuel needed by `expand` per nesting level: scalars need one step,
strings three (expand, expand_string, substAll), containers one more than
their children. -/
def vheight : Value → Nat
  | .null => 1
  | .bool _ => 1
  | .number _ => 1
  | .str _ => 3
  | .seq l => 1 + vheightL l
  | .mapping m => 1 + vheightP m
  | .tagged => 1
def vheightL : List Value → Nat
  | [] => 0
  | v :: l => max (vheight v) (vheightL l)
def vheightP : List (Value × Value) → Nat
  | [] => 0
  | (k, v) :: l => max (max (vheight k) (vheight v)) (vheightP l)
end

/-! ## Supporting lemmas -/

theorem lastSlashIdx_lt : ∀ {l : Str} {i : Nat}, lastSlashIdx l = some i → i < l.length := by
  intro l
  induction l with
  | nil => intro i h; simp [lastSlashIdx] at h
  | cons c rest ih =>
    intro i h
    simp only [lastSlashIdx] at h
    cases hr : lastSlashIdx rest with
    | some j =>
      rw [hr] at h
      cases h
      have := ih hr
      simp only [List.length_cons]
      omega
    | none =>
      rw [hr] at h
      by_cases hc : c = '/'
      · simp [hc] at h
        cases h
        simp
      · simp [hc] at h

/-- Unfolding of `_lookup` on a miss for a name of length at least two:
the wildcard-fallback step. -/
theorem _lookup_miss_step (fuel : Nat) (name : Str) (env : Environment)
    (hmiss : defsGet env.definitions.definitions name = none)
    (hlen : 2 ≤ name.length) :
    _lookup (fuel + 1) name env =
      match lastSlashIdx (name.take (name.length - 2)) with
      | none => .ok none
      | some i => _lookup fuel (name.take i ++ ['/', '*']) env := by
  simp only [_lookup, hmiss]
  rw [if_neg (by omega)]

/-- The fuel given to `_lookup` is irrelevant above the name length: the
fallback name always shrinks, so the recursion depth is bounded by the
length and the fuelled definition agrees with the Rust recursion. -/
theorem _lookup_fuel_irrel :
    ∀ (bound : Nat) (name : Str), name.length ≤ bound →
    ∀ (env : Environment) (fuel fuel' : Nat),
      name.length < fuel → name.length < fuel' →
      _lookup fuel name env = _lookup fuel' name env := by
  intro bound
  induction bound with
  | zero =>
    intro name hb env fuel fuel' hf hf'
    have hn : name = [] := List.eq_nil_of_length_eq_zero (by omega)
    subst hn
    cases fuel with
    | zero => omega
    | succ a =>
      cases fuel' with
      | zero => omega
      | succ b =>
        simp only [_lookup]
        cases hdef : defsGet env.definitions.definitions ([] : Str) with
        | some v => simp [hdef]
        | none => simp [hdef]
  | succ N ih =>
    intro name hb env fuel fuel' hf hf'
    cases fuel with
    | zero => omega
    | succ a =>
      cases fuel' with
      | zero => omega
      | succ b =>
        simp only [_lookup]
        cases hdef : defsGet env.definitions.definitions name with
        | some v => rfl
        | none =>
          by_cases h2 : name.length < 2
          · rw [if_pos h2, if_pos h2]
          · rw [if_neg h2, if_neg h2]
            cases hsl : lastSlashIdx (name.take (name.length - 2)) with
            | none => rfl
            | some i =>
              have hi := lastSlashIdx_lt hsl
              rw [List.length_take] at hi
              have hlen2 : (name.take i ++ ['/', '*']).length ≤ name.length - 1 := by
                simp [List.length_take]
                omega
              exact ih (name.take i ++ ['/', '*']) (by omega) env a b (by omega) (by omega)

/-! ## Claim C1 — hierarchical wildcard fallback -/

/-- C1 fails as stated: with definitions containing only `"svc/*" ↦
"default"`, resolving `"svc/3"` does not return "default" — truncating the
trailing two characters of `"svc/3"` leaves `"svc"`, which contains no
separator, so `_lookup` returns no value and the full `lookup` aborts. -/
theorem c1_counterexample :
    _lookup 6 "svc/3".data
        ⟨⟨[("svc/*".data, Value.str "default".data)], []⟩, []⟩ = .ok none
    ∧ lookup 1 "svc/3".data
        ⟨⟨[("svc/*".data, Value.str "default".data)], []⟩, []⟩
      = .error "Couldn't find definition"
    ∧ (Except.ok (some (Value.str "default".data)) ≠
        (Except.ok none : Except String (Option Value))) :=
  ⟨rfl, rfl, fun h => by simp at h⟩

/-- C1 (amended): for every environment whose definition source contains
`"svc/*" ↦ "default"` and no key `"svc/33"`, resolving the reference name
`"svc/33"` (terminal segment of two characters) succeeds and returns
"default".  The original `"svc/3"` fails because the two-character
truncation also removes the separator. -/
theorem c1_wildcard_fallback (fuel : Nat) (env : Environment)
    (h33 : defsGet env.definitions.definitions "svc/33".data = none)
    (hstar : defsGet env.definitions.definitions "svc/*".data
      = some (Value.str "default".data)) :
    _lookup (fuel + 2) "svc/33".data env = .ok (some (Value.str "default".data)) := by
  have step := _lookup_miss_step (fuel + 1) "svc/33".data env h33 (by decide)
  rw [show fuel + 2 = (fuel + 1) + 1 from rfl, step]
  show _lookup (fuel + 1) "svc/*".data env = _
  simp only [_lookup, hstar]

/-- Witness for C1: the amended fallback at the concrete environment. -/
theorem c1_witness :
    defsGet [("svc/*".data, Value.str "default".data)] "svc/33".data = none
    ∧ _lookup 2 "svc/33".data
        ⟨⟨[("svc/*".data, Value.str "default".data)], []⟩, []⟩
      = .ok (some (Value.str "default".data)) :=
  ⟨rfl, c1_wildcard_fallback 0 _ rfl rfl⟩

/-! ## Claim C2 — the fallback mechanics -/

/-- C2 fails as stated only for degenerate names: a missing name shorter
than two characters makes the Rust slice `name[..len - 2]` panic instead
of returning no value. -/
theorem c2_counterexample :
    _lookup 2 "x".data ⟨⟨[], []⟩, []⟩ = .error "byte index out of bounds"
    ∧ (_lookup 2 "x".data ⟨⟨[], []⟩, []⟩ ≠ .ok none) :=
  ⟨rfl, fun h => Except.noConfusion h⟩

/-- C2 (amended): for every reference name of at least two characters that
is not an exact key of the definition source, resolution truncates the
trailing two characters, finds the right-most '/' in the remainder, and
recursively resolves (substring up to that separator) ++ "/*"; when the
truncated remainder contains no '/', resolution fails with no value.
(A missing name shorter than two characters aborts on the string slice.) -/
theorem c2_fallback_mechanics (fuel : Nat) (name : Str) (env : Environment)
    (hmiss : defsGet env.definitions.definitions name = none)
    (hlen : 2 ≤ name.length) :
    _lookup (fuel + 1) name env =
      match lastSlashIdx (name.take (name.length - 2)) with
      | none => .ok none
      | some i => _lookup fuel (name.take i ++ ['/', '*']) env :=
  _lookup_miss_step fuel name env hmiss hlen

/-- Witness for C2: a missing two-segment-free name resolves to nothing. -/
theorem c2_witness :
    defsGet [] "abcd".data = none
    ∧ 2 ≤ "abcd".data.length
    ∧ _lookup 1 "abcd".data ⟨⟨[], []⟩, []⟩ = .ok none :=
  ⟨rfl, by decide, (c2_fallback_mechanics 0 "abcd".data ⟨⟨[], []⟩, []⟩ rfl (by decide)).trans rfl⟩

/-! ## Claim C10 — full-match runtime-deferred token -/

/-- C10: a string whose entire (trimmed) content is a single token whose
name is unresolved but runtime-deferred expands to the original string
node completely unchanged, surrounding whitespace included. -/
theorem c10_full_match_deferred (fuel : Nat) (s name : Str) (env : Environment)
    (hp : parseFull s = some name)
    (hl : lookup fuel name env = .ok none) :
    expand_string (fuel + 1) s env = .ok (.str s) := by
  simp only [expand_string, hp, hl]

/-- Witness for C10: `"  (( rt/x ))  "` with runtime prefix "rt" and no
definition for "rt/x" is returned unchanged, whitespace included. -/
theorem c10_witness :
    parseFull "  (( rt/x ))  ".data = some "rt/x".data
    ∧ lookup 1 "rt/x".data ⟨⟨[], []⟩, ["rt".data]⟩ = .ok none
    ∧ expand_string 2 "  (( rt/x ))  ".data ⟨⟨[], []⟩, ["rt".data]⟩
      = .ok (.str "  (( rt/x ))  ".data) :=
  ⟨rfl, rfl, c10_full_match_deferred 1 _ _ _ rfl rfl⟩

/-! ## Claim C4 — token type rules -/

/-- C4: a full-match token resolving to a Mapping replaces the string node
wholesale by that Mapping; the same token embedded among other text is a
fatal error when the name resolves to a Mapping, and renders as the
value's text when the name resolves to a String or a Number. -/
theorem c4_token_type_rules :
    (∀ (fuel : Nat) (s name : Str) (env : Environment) (m : List (Value × Value)),
       parseFull s = some name →
       lookup fuel name env = .ok (some (.mapping m)) →
       expand_string (fuel + 1) s env = .ok (.mapping m))
    ∧ (∀ (fuel : Nat) (s pre name rest : Str) (env : Environment) (m : List (Value × Value)),
       parseFull s = none →
       findTok s = some (pre, name, rest) →
       lookup fuel name env = .ok (some (.mapping m)) →
       expand_string (fuel + 2) s env = .error "Attempted to interpolate non-string value")
    ∧ (∀ (fuel : Nat) (s pre name rest v t : Str) (env : Environment),
       parseFull s = none →
       findTok s = some (pre, name, rest) →
       lookup fuel name env = .ok (some (.str v)) →
       substAll fuel rest env = .ok t →
       expand_string (fuel + 2) s env = .ok (.str (pre ++ v ++ t)))
    ∧ (∀ (fuel : Nat) (s pre name rest t : Str) (n : Int) (env : Environment),
       parseFull s = none →
       findTok s = some (pre, name, rest) →
       lookup fuel name env = .ok (some (.number n)) →
       substAll fuel rest env = .ok t →
       expand_string (fuel + 2) s env = .ok (.str (pre ++ intText n ++ t))) := by
  refine ⟨?_, ?_, ?_, ?_⟩
  · intro fuel s name env m hp hl
    simp only [expand_string, hp, hl]
  · intro fuel s pre name rest env m hp hf hl
    show expand_string (fuel + 1 + 1) s env = _
    simp only [expand_string, substAll, hp, hf, hl, interpolate]
  · intro fuel s pre name rest v t env hp hf hl ht
    show expand_string (fuel + 1 + 1) s env = _
    simp only [expand_string, substAll, hp, hf, hl, ht, interpolate]
  · intro fuel s pre name rest t n env hp hf hl ht
    show expand_string (fuel + 1 + 1) s env = _
    simp only [expand_string, substAll, hp, hf, hl, ht, interpolate]

/-- Witness for C4: the four behaviours at one concrete environment
(`mp` a mapping, `st` the string "S", `n` the number 5). -/
theorem c4_witness :
    expand_string 7 "(( mp ))".data
        ⟨⟨[("mp".data, Value.mapping [(.str "x".data, .str "1".data)]),
           ("st".data, Value.str "S".data),
           ("n".data, Value.number 5)], []⟩, []⟩
      = .ok (.mapping [(.str "x".data, .str "1".data)])
    ∧ expand_string 8 "x (( mp )) y".data
        ⟨⟨[("mp".data, Value.mapping [(.str "x".data, .str "1".data)]),
           ("st".data, Value.str "S".data),
           ("n".data, Value.number 5)], []⟩, []⟩
      = .error "Attempted to interpolate non-string value"
    ∧ expand_string 6 "x (( st )) y".data
        ⟨⟨[("mp".data, Value.mapping [(.str "x".data, .str "1".data)]),
           ("st".data, Value.str "S".data),
           ("n".data, Value.number 5)], []⟩, []⟩
      = .ok (.str "x S y".data)
    ∧ expand_string 6 "x (( n )) y".data
        ⟨⟨[("mp".data, Value.mapping [(.str "x".data, .str "1".data)]),
           ("st".data, Value.str "S".data),
           ("n".data, Value.number 5)], []⟩, []⟩
      = .ok (.str "x 5 y".data) :=
  ⟨c4_token_type_rules.1 6 "(( mp ))".data "mp".data
      ⟨⟨[("mp".data, Value.mapping [(.str "x".data, .str "1".data)]),
         ("st".data, Value.str "S".data),
         ("n".data, Value.number 5)], []⟩, []⟩
      [(.str "x".data, .str "1".data)] rfl rfl,
   c4_token_type_rules.2.1 6 "x (( mp )) y".data "x ".data "mp".data " y".data
      ⟨⟨[("mp".data, Value.mapping [(.str "x".data, .str "1".data)]),
         ("st".data, Value.str "S".data),
         ("n".data, Value.number 5)], []⟩, []⟩
      [(.str "x".data, .str "1".data)] rfl rfl rfl,
   c4_token_type_rules.2.2.1 4 "x (( st )) y".data "x ".data "st".data " y".data
      "S".data " y".data
      ⟨⟨[("mp".data, Value.mapping [(.str "x".data, .str "1".data)]),
         ("st".data, Value.str "S".data),
         ("n".data, Value.number 5)], []⟩, []⟩
      rfl rfl rfl rfl,
   c4_token_type_rules.2.2.2 4 "x (( n )) y".data "x ".data "n".data " y".data
      " y".data 5
      ⟨⟨[("mp".data, Value.mapping [(.str "x".data, .str "1".data)]),
         ("st".data, Value.str "S".data),
         ("n".data, Value.number 5)], []⟩, []⟩
      rfl rfl rfl rfl⟩

/-! ## Claim C5 — runtime-deferred references -/

/-- C5 fails in one detail: an unresolved runtime-deferred token embedded
in text is not left byte-for-byte intact but re-emitted in the normalised
spelling `(( name ))`, as the concrete token `((rt/x))` shows. -/
theorem c5_counterexample :
    expand_string 3 "q((rt/x))".data ⟨⟨[], []⟩, ["rt".data]⟩
      = .ok (.str "q(( rt/x ))".data)
    ∧ "q(( rt/x ))".data ≠ "q((rt/x))".data :=
  ⟨rfl, by decide⟩

/-- C5 (amended): a reference name that fails resolution succeeds with no
value when it starts with a runtime prefix — an embedded occurrence is
re-emitted as the token text `(( name ))` (single spaces) rather than an
error — and fails fatally otherwise; a runtime-deferred name that is
nevertheless found triggers the non-fatal warning and the found value is
used. -/
theorem c5_runtime_deferral :
    (∀ (fuel : Nat) (name : Str) (env : Environment),
       _lookup (name.length + 1) name env = .ok none →
       isRuntimeName name env = true →
       lookup (fuel + 1) name env = .ok none)
    ∧ (∀ (fuel : Nat) (name : Str) (env : Environment),
       _lookup (name.length + 1) name env = .ok none →
       isRuntimeName name env = false →
       lookup (fuel + 1) name env = .error "Couldn't find definition")
    ∧ (∀ (fuel : Nat) (s pre name rest t : Str) (env : Environment),
       parseFull s = none →
       findTok s = some (pre, name, rest) →
       lookup fuel name env = .ok none →
       substAll fuel rest env = .ok t →
       expand_string (fuel + 2) s env = .ok (.str (pre ++ tokenText name ++ t)))
    ∧ (∀ (fuel : Nat) (name : Str) (env : Environment) (val : Value),
       _lookup (name.length + 1) name env = .ok (some val) →
       isRuntimeName name env = true →
       runtimeWarning name env = true
       ∧ (endsJson name = false →
          lookup (fuel + 1) name env =
            match expand fuel val env with
            | .error e => .error e
            | .ok v => .ok (some v))) := by
  refine ⟨?_, ?_, ?_, ?_⟩
  · intro fuel name env hl hr
    simp only [lookup, hl, hr, if_true]
  · intro fuel name env hl hr
    simp only [lookup, hl, hr, Bool.false_eq_true, if_false]
  · intro fuel s pre name rest t env hp hf hl ht
    show expand_string (fuel + 1 + 1) s env = _
    simp only [expand_string, substAll, hp, hf, hl, ht, interpolate]
  · intro fuel name env val hl hr
    constructor
    · simp only [runtimeWarning, hl, hr, Bool.and_self]
    · intro hj
      simp only [lookup, hl, hj, Bool.false_eq_true, if_false]

/-- Witness for C5: the four behaviours at concrete environments with
runtime prefix "rt" and a hardcoded "rt/hard". -/
theorem c5_witness :
    lookup 1 "rt/x".data ⟨⟨[("rt/hard".data, Value.str "h".data)], []⟩, ["rt".data]⟩
      = .ok none
    ∧ lookup 1 "zz/x".data ⟨⟨[("rt/hard".data, Value.str "h".data)], []⟩, ["rt".data]⟩
      = .error "Couldn't find definition"
    ∧ expand_string 3 "A((rt/x))B".data
        ⟨⟨[("rt/hard".data, Value.str "h".data)], []⟩, ["rt".data]⟩
      = .ok (.str "A(( rt/x ))B".data)
    ∧ runtimeWarning "rt/hard".data
        ⟨⟨[("rt/hard".data, Value.str "h".data)], []⟩, ["rt".data]⟩ = true
    ∧ lookup 4 "rt/hard".data ⟨⟨[("rt/hard".data, Value.str "h".data)], []⟩, ["rt".data]⟩
      = .ok (some (.str "h".data)) :=
  ⟨c5_runtime_deferral.1 0 "rt/x".data
      ⟨⟨[("rt/hard".data, Value.str "h".data)], []⟩, ["rt".data]⟩ rfl rfl,
   c5_runtime_deferral.2.1 0 "zz/x".data
      ⟨⟨[("rt/hard".data, Value.str "h".data)], []⟩, ["rt".data]⟩ rfl rfl,
   c5_runtime_deferral.2.2.1 1 "A((rt/x))B".data "A".data "rt/x".data "B".data "B".data
      ⟨⟨[("rt/hard".data, Value.str "h".data)], []⟩, ["rt".data]⟩ rfl rfl rfl rfl,
   (c5_runtime_deferral.2.2.2 3 "rt/hard".data
      ⟨⟨[("rt/hard".data, Value.str "h".data)], []⟩, ["rt".data]⟩
      (Value.str "h".data) rfl rfl).1,
   ((c5_runtime_deferral.2.2.2 3 "rt/hard".data
      ⟨⟨[("rt/hard".data, Value.str "h".data)], []⟩, ["rt".data]⟩
      (Value.str "h".data) rfl rfl).2 rfl).trans rfl⟩

/-! ## Claim C9 — the substitution pattern -/

/-- C9 fails as stated: the implemented character class is `[^) ]`, which
excludes only ')' and the ASCII space, not all whitespace; a token whose
name contains a tab is recognised and substituted, while the claimed class
`[^)\s]` would not match it. -/
theorem c9_counterexample :
    expand_string 6 "<((a\tb))>".data ⟨⟨[("a\tb".data, Value.str "V".data)], []⟩, []⟩
      = .ok (.str "<V>".data)
    ∧ "a\tb".data.any isWs = true :=
  ⟨rfl, by decide⟩

/-- C9 (amended): exactly the substrings matching
`\(\(\s*([^) ]*?)\s*\)\)` — token names exclude ')' and the ASCII space
but may contain other whitespace — are recognised as embedded tokens and
substituted; text outside matches is preserved verbatim. -/
theorem c9_substitution_pattern :
    (∀ (fuel : Nat) (s : Str) (env : Environment),
       findTok s = none → substAll (fuel + 1) s env = .ok s)
    ∧ (∀ (fuel : Nat) (s pre name rest : Str) (env : Environment),
       findTok s = some (pre, name, rest) →
       substAll (fuel + 1) s env =
         match lookup fuel name env with
         | .error e => .error e
         | .ok r =>
           match interpolate name r with
           | .error e => .error e
           | .ok rep =>
             match substAll fuel rest env with
             | .error e => .error e
             | .ok tail => .ok (pre ++ rep ++ tail))
    ∧ findTok "<((a\tb))>".data = some ("<".data, "a\tb".data, ">".data) := by
  refine ⟨?_, ?_, rfl⟩
  · intro fuel s env hf
    simp only [substAll, hf]
  · intro fuel s pre name rest env hf
    simp only [substAll, hf]

/-- Witness for C9: a token-free string is preserved verbatim; a matched
token is substituted with the text around it untouched. -/
theorem c9_witness :
    substAll 1 "plain text".data ⟨⟨[], []⟩, []⟩ = .ok "plain text".data
    ∧ substAll 5 "A(( b ))C".data ⟨⟨[("b".data, Value.str "B".data)], []⟩, []⟩
      = .ok "ABC".data :=
  ⟨c9_substitution_pattern.1 0 "plain text".data ⟨⟨[], []⟩, []⟩ rfl,
   (c9_substitution_pattern.2.1 4 "A(( b ))C".data "A".data "b".data "C".data
      ⟨⟨[("b".data, Value.str "B".data)], []⟩, []⟩ rfl).trans rfl⟩

/-! ## Claim C6 — the "/json" suffix -/

/-- C6: for a reference name ending in "/json" whose lookup finds a value,
the fully expanded value must be a Mapping or a String; a Mapping is
returned as a String holding its canonical JSON text with keys sorted, a
String is returned unchanged, anything else is fatal; concretely the
mapping with keys "k" ↦ 1 and "j" ↦ 2 yields the sorted canonical text. -/
theorem c6_json_suffix :
    (∀ (fuel : Nat) (name : Str) (env : Environment) (val : Value)
       (m : List (Value × Value)) (s : Str),
       endsJson name = true →
       _lookup (name.length + 1) name env = .ok (some val) →
       expand fuel val env = .ok (.mapping m) →
       jsonCanon fuel (.mapping m) = .ok s →
       lookup (fuel + 1) name env = .ok (some (.str s)))
    ∧ (∀ (fuel : Nat) (name : Str) (env : Environment) (val : Value) (s : Str),
       endsJson name = true →
       _lookup (name.length + 1) name env = .ok (some val) →
       expand fuel val env = .ok (.str s) →
       lookup (fuel + 1) name env = .ok (some (.str s)))
    ∧ (∀ (fuel : Nat) (name : Str) (env : Environment) (val v : Value),
       endsJson name = true →
       _lookup (name.length + 1) name env = .ok (some val) →
       expand fuel val env = .ok v →
       (match v with | .mapping _ => False | .str _ => False | _ => True) →
       lookup (fuel + 1) name env = .error "Received non-mapping value for /json conversion")
    ∧ lookup 6 "m/json".data
        ⟨⟨[("m/json".data, Value.mapping [(.str "k".data, .number 1),
                                          (.str "j".data, .number 2)])], []⟩, []⟩
      = .ok (some (.str (lbrace :: "\"j\":2,\"k\":1".data ++ [rbrace]))) := by
  refine ⟨?_, ?_, ?_, rfl⟩
  · intro fuel name env val m s hj hl he hc
    simp only [lookup, hl, hj, if_true, he, hc]
  · intro fuel name env val s hj hl he
    simp only [lookup, hl, hj, if_true, he]
  · intro fuel name env val v hj hl he hv
    simp only [lookup, hl, hj, if_true, he]
    cases v <;> simp_all

/-- Witness for C6: the three typed outcomes at concrete environments. -/
theorem c6_witness :
    lookup 6 "m/json".data
        ⟨⟨[("m/json".data, Value.mapping [(.str "k".data, .number 1),
                                          (.str "j".data, .number 2)])], []⟩, []⟩
      = .ok (some (.str (lbrace :: "\"j\":2,\"k\":1".data ++ [rbrace])))
    ∧ lookup 4 "s/json".data ⟨⟨[("s/json".data, Value.str "T".data)], []⟩, []⟩
      = .ok (some (.str "T".data))
    ∧ lookup 2 "n/json".data ⟨⟨[("n/json".data, Value.number 7)], []⟩, []⟩
      = .error "Received non-mapping value for /json conversion" :=
  ⟨c6_json_suffix.1 5 _ _ _ _ _ rfl rfl rfl rfl,
   c6_json_suffix.2.1 3 _ _ _ _ rfl rfl rfl,
   c6_json_suffix.2.2.1 1 _ _ _ (.number 7) rfl rfl rfl trivial⟩

/-! ## Claim C7 — mutation failure conditions -/

/-- A failing edit at a navigable path makes the whole update fail. -/
theorem updateAt_error :
    ∀ (path : List Str) {content t : Value} {f : Value → Except String Value} {e : String},
      navigate content path = .ok t → f t = .error e →
      updateAt content path f = .error e := by
  intro path
  induction path with
  | nil =>
    intro content t f e hnav hf
    simp only [navigate, Except.ok.injEq] at hnav
    subst hnav
    simpa [updateAt] using hf
  | cons seg rest ih =>
    intro content t f e hnav hf
    cases content with
    | mapping m =>
      simp only [navigate] at hnav
      cases hget : mapGet m (.str seg) with
      | none => rw [hget] at hnav; exact absurd hnav (by simp)
      | some next =>
        rw [hget] at hnav
        simp only [updateAt, hget, ih hnav hf]
    | null => simp [navigate] at hnav
    | bool b => simp [navigate] at hnav
    | number n => simp [navigate] at hnav
    | str s => simp [navigate] at hnav
    | seq l => simp [navigate] at hnav
    | tagged => simp [navigate] at hnav

/-- The old value returned by a map insert is the previous binding. -/
theorem mapInsert_snd : ∀ (m : List (Value × Value)) (k v : Value),
    (mapInsert m k v).2 = mapGet m k := by
  intro m k v
  induction m with
  | nil => rfl
  | cons kv rest ih =>
    obtain ⟨k', v'⟩ := kv
    simp only [mapInsert, mapGet]
    by_cases hb : valueBeq k' k
    · simp [hb]
    · simp [hb, ← ih]

/-- Inserting never removes a present key. -/
theorem mapGet_insert_isSome : ∀ (m : List (Value × Value)) (k v k0 : Value) {w : Value},
    mapGet m k0 = some w → ∃ w', mapGet (mapInsert m k v).1 k0 = some w' := by
  intro m k v
  induction m with
  | nil => intro k0 w h; simp [mapGet] at h
  | cons kv rest ih =>
    obtain ⟨k', v'⟩ := kv
    intro k0 w h
    simp only [mapGet] at h
    by_cases hb : valueBeq k' k
    · simp only [mapInsert, hb, if_true, mapGet]
      by_cases hb0 : valueBeq k' k0
      · exact ⟨v, by simp [hb0]⟩
      · rw [if_neg hb0] at h ⊢
        exact ⟨w, h⟩
    · simp only [mapInsert, hb, if_false, mapGet]
      by_cases hb0 : valueBeq k' k0
      · exact ⟨v', by simp [hb0]⟩
      · rw [if_neg hb0] at h ⊢
        exact ih k0 h

/-- If some inserted key is already bound at the target, the Add-merge
loop fails (Add never overwrites). -/
theorem insertAll_conflict :
    ∀ (entries cur : List (Value × Value)) (k0 v0 w : Value),
      (k0, v0) ∈ entries → mapGet cur k0 = some w →
      insertAll cur entries = .error "Already had value" := by
  intro entries
  induction entries with
  | nil => intro cur k0 v0 w hm; exact absurd hm (by simp)
  | cons kv rest ih =>
    obtain ⟨k, v⟩ := kv
    intro cur k0 v0 w hm hget
    simp only [insertAll]
    cases hins : mapInsert cur k v with
    | mk cur' old =>
      cases old with
      | some o => rfl
      | none =>
        have hnone : mapGet cur k = none := by
          have := mapInsert_snd cur k v
          rw [hins] at this
          exact this.symm
        rcases List.mem_cons.mp hm with heq | hmem
        · cases heq
          rw [hget] at hnone
          cases hnone
        · have hcur' : cur' = (mapInsert cur k v).1 := by rw [hins]
          obtain ⟨w', hw'⟩ := mapGet_insert_isSome cur k v k0 hget
          rw [← hcur'] at hw'
          exact ih cur' k0 v0 w' hmem hw'

/-- A key absent from a mapping has no removal index. -/
theorem removeIdx_none : ∀ (m : List (Value × Value)) (k : Value),
    mapGet m k = none → removeIdx m k = none := by
  intro m k
  induction m with
  | nil => intro _; rfl
  | cons kv rest ih =>
    obtain ⟨k', v'⟩ := kv
    intro h
    simp only [mapGet] at h
    by_cases hb : valueBeq k' k
    · rw [if_pos hb] at h; cases h
    · rw [if_neg hb] at h
      simp only [removeIdx]
      rw [if_neg hb, ih h]

/-- C7: Add of a Mapping fails when any inserted key already exists at the
target; Add of a Sequence onto a non-Sequence target fails; Add of a
Mapping onto a non-Mapping target fails; Add of a scalar always fails;
Remove fails when the final key is absent; Replace fails when the final
key does not already exist. -/
theorem c7_mutation_failures :
    (∀ (content : Value) (path : List Str) (newEntries cur : List (Value × Value))
       (k0 v0 w : Value),
       navigate content path = .ok (.mapping cur) →
       (k0, v0) ∈ newEntries →
       mapGet cur k0 = some w →
       apply_mutation (.add path (.mapping newEntries)) content = .error "Already had value")
    ∧ (∀ (content t : Value) (path : List Str) (newElems : List Value),
       navigate content path = .ok t →
       (match t with | .seq _ => False | _ => True) →
       apply_mutation (.add path (.seq newElems)) content = .error "urm")
    ∧ (∀ (content t : Value) (path : List Str) (newEntries : List (Value × Value)),
       navigate content path = .ok t →
       (match t with | .mapping _ => False | _ => True) →
       apply_mutation (.add path (.mapping newEntries)) content = .error "urm")
    ∧ (∀ (content v : Value) (path : List Str),
       (match v with | .mapping _ => False | .seq _ => False | _ => True) →
       apply_mutation (.add path v) content
         = .error "Add mutation is trying to add non-mapping, non-sequence values")
    ∧ (∀ (content : Value) (path : List Str) (last : Str) (cur : List (Value × Value)),
       path.getLast? = some last →
       navigate content path.dropLast = .ok (.mapping cur) →
       mapGet cur (.str last) = none →
       apply_mutation (.remove path) content = .error "can't remove missing")
    ∧ (∀ (content v : Value) (path : List Str) (last : Str) (cur : List (Value × Value)),
       path.getLast? = some last →
       navigate content path.dropLast = .ok (.mapping cur) →
       mapGet cur (.str last) = none →
       apply_mutation (.replace path v) content
         = .error "Value to replace did not exist") := by
  refine ⟨?_, ?_, ?_, ?_, ?_, ?_⟩
  · intro content path newEntries cur k0 v0 w hnav hmem hget
    simp only [apply_mutation]
    exact updateAt_error path hnav
      (by simp [insertAll_conflict newEntries cur k0 v0 w hmem hget])
  · intro content t path newElems hnav ht
    simp only [apply_mutation]
    refine updateAt_error path hnav ?_
    cases t <;> simp_all
  · intro content t path newEntries hnav ht
    simp only [apply_mutation]
    refine updateAt_error path hnav ?_
    cases t <;> simp_all
  · intro content v path hv
    cases v <;> simp_all [apply_mutation]
  · intro content path last cur hlast hnav hget
    simp only [apply_mutation, hlast]
    refine updateAt_error path.dropLast hnav ?_
    simp only [swapRemove, removeIdx_none cur (.str last) hget]
  · intro content v path last cur hlast hnav hget
    simp only [apply_mutation, hlast]
    refine updateAt_error path.dropLast hnav ?_
    cases hins : mapInsert cur (.str last) v with
    | mk cur' old =>
      have : old = none := by
        have := mapInsert_snd cur (.str last) v
        rw [hins] at this
        simpa [hget] using this
      subst this
      simp [hins]

/-- Witness for C7: all six failure modes on one small concrete tree. -/
theorem c7_witness :
    apply_mutation (.add ["top".data] (.mapping [(.str "k".data, .number 9)]))
        (.mapping [(.str "top".data, .mapping [(.str "k".data, .str "v".data)]),
                   (.str "arr".data, .seq [.null])])
      = .error "Already had value"
    ∧ apply_mutation (.add ["top".data] (.seq [.null]))
        (.mapping [(.str "top".data, .mapping [(.str "k".data, .str "v".data)]),
                   (.str "arr".data, .seq [.null])])
      = .error "urm"
    ∧ apply_mutation (.add ["arr".data] (.mapping [(.str "k".data, .number 9)]))
        (.mapping [(.str "top".data, .mapping [(.str "k".data, .str "v".data)]),
                   (.str "arr".data, .seq [.null])])
      = .error "urm"
    ∧ apply_mutation (.add ["top".data] (.number 1))
        (.mapping [(.str "top".data, .mapping [(.str "k".data, .str "v".data)]),
                   (.str "arr".data, .seq [.null])])
      = .error "Add mutation is trying to add non-mapping, non-sequence values"
    ∧ apply_mutation (.remove ["top".data, "zz".data])
        (.mapping [(.str "top".data, .mapping [(.str "k".data, .str "v".data)]),
                   (.str "arr".data, .seq [.null])])
      = .error "can't remove missing"
    ∧ apply_mutation (.replace ["top".data, "zz".data] (.number 3))
        (.mapping [(.str "top".data, .mapping [(.str "k".data, .str "v".data)]),
                   (.str "arr".data, .seq [.null])])
      = .error "Value to replace did not exist" :=
  ⟨c7_mutation_failures.1 _ ["top".data] [(.str "k".data, .number 9)]
      [(.str "k".data, .str "v".data)] (.str "k".data) (.number 9) (.str "v".data)
      rfl (by simp) rfl,
   c7_mutation_failures.2.1 _ (.mapping [(.str "k".data, .str "v".data)])
      ["top".data] [.null] rfl trivial,
   c7_mutation_failures.2.2.1 _ (.seq [.null]) ["arr".data]
      [(.str "k".data, .number 9)] rfl trivial,
   c7_mutation_failures.2.2.2.1 _ (.number 1) ["top".data] trivial,
   c7_mutation_failures.2.2.2.2.1 _ ["top".data, "zz".data] "zz".data
      [(.str "k".data, .str "v".data)] rfl rfl rfl,
   c7_mutation_failures.2.2.2.2.2 _ (.number 3) ["top".data, "zz".data] "zz".data
      [(.str "k".data, .str "v".data)] rfl rfl rfl⟩

/-! ## Claim C3 — deterministic mapping-key ordering -/

theorem entryLe_total (p q : Value × Value) : (entryLe p q || entryLe q p) = true := by
  simp only [entryLe, Bool.or_eq_true, decide_eq_true_eq]
  exact le_total _ _

theorem entryLe_trans : ∀ (p q r : Value × Value),
    entryLe p q = true → entryLe q r = true → entryLe p r = true := by
  intro p q r h1 h2
  simp only [entryLe, decide_eq_true_eq] at *
  exact le_trans h1 h2

theorem ordInsert_perm (le : α → α → Bool) (a : α) :
    ∀ l, (ordInsert le a l).Perm (a :: l) := by
  intro l
  induction l with
  | nil => exact List.Perm.refl _
  | cons b t ih =>
    simp only [ordInsert]
    by_cases h : le a b
    · rw [if_pos h]
    · rw [if_neg h]
      exact (ih.cons b).trans (List.Perm.swap a b t)

theorem insSort_perm (le : α → α → Bool) : ∀ l, (insSort le l).Perm l := by
  intro l
  induction l with
  | nil => exact List.Perm.refl _
  | cons a t ih =>
    exact (ordInsert_perm le a (insSort le t)).trans (ih.cons a)

theorem ordInsert_pairwise {le : α → α → Bool}
    (htot : ∀ a b, (le a b || le b a) = true)
    (htrans : ∀ a b c, le a b = true → le b c = true → le a c = true) (a : α) :
    ∀ {l}, l.Pairwise (fun x y => le x y = true) →
      (ordInsert le a l).Pairwise (fun x y => le x y = true) := by
  intro l
  induction l with
  | nil => intro _; simp [ordInsert]
  | cons b t ih =>
    intro hp
    rw [List.pairwise_cons] at hp
    obtain ⟨hb, ht⟩ := hp
    simp only [ordInsert]
    by_cases h : le a b
    · rw [if_pos h, List.pairwise_cons]
      refine ⟨?_, List.pairwise_cons.mpr ⟨hb, ht⟩⟩
      intro x hx
      rcases List.mem_cons.mp hx with rfl | hx
      · exact h
      · exact htrans a b x h (hb x hx)
    · rw [if_neg h, List.pairwise_cons]
      have hba : le b a = true := by
        have := htot a b
        simp only [Bool.or_eq_true] at this
        rcases this with h' | h'
        · exact absurd h' h
        · exact h'
      refine ⟨?_, ih ht⟩
      intro x hx
      have hx' := (ordInsert_perm le a t).mem_iff.mp hx
      rcases List.mem_cons.mp hx' with rfl | hx'
      · exact hba
      · exact hb x hx'

theorem insSort_pairwise {le : α → α → Bool}
    (htot : ∀ a b, (le a b || le b a) = true)
    (htrans : ∀ a b c, le a b = true → le b c = true → le a c = true) :
    ∀ l, (insSort le l).Pairwise (fun x y => le x y = true) := by
  intro l
  induction l with
  | nil => simp [insSort]
  | cons a t ih => exact ordInsert_pairwise htot htrans a ih

/-- An effectful map applied to a permutation of a successful input also
succeeds, with a permuted output. -/
theorem mapME_perm {f : α → Except String β} :
    ∀ {l1 l2 : List α}, l1.Perm l2 → ∀ {r1 : List β}, mapME f l1 = .ok r1 →
      ∃ r2, mapME f l2 = .ok r2 ∧ r1.Perm r2 := by
  intro l1 l2 hp
  induction hp with
  | nil =>
    intro r1 h
    exact ⟨r1, h, List.Perm.refl _⟩
  | cons x hp ih =>
    intro r1 h
    simp only [mapME] at h
    split at h
    · exact absurd h (by simp)
    · rename_i b hfx
      split at h
      · exact absurd h (by simp)
      · rename_i bs hrest
        injection h with h
        subst h
        obtain ⟨bs2, h2, hperm⟩ := ih hrest
        exact ⟨b :: bs2, by simp [mapME, hfx, h2], hperm.cons b⟩
  | swap x y l =>
    intro r1 h
    simp only [mapME] at h ⊢
    cases hfy : f y with
    | error e => rw [hfy] at h; exact absurd h (by simp)
    | ok a =>
      rw [hfy] at h
      cases hfx : f x with
      | error e => rw [hfx] at h; exact absurd h (by simp)
      | ok b =>
        rw [hfx] at h
        cases hrest : mapME f l with
        | error e => rw [hrest] at h; exact absurd h (by simp)
        | ok bs =>
          rw [hrest] at h
          injection h with h
          subst h
          exact ⟨b :: a :: bs, by simp [hfx, hfy, hrest], List.Perm.swap b a bs⟩
  | trans h12 h23 ih1 ih2 =>
    intro r1 h
    obtain ⟨r2, h2, p12⟩ := ih1 h
    obtain ⟨r3, h3, p23⟩ := ih2 h2
    exact ⟨r3, h3, p12.trans p23⟩

/-- A key-preserving effectful map preserves the key column. -/
theorem mapME_fst {f : Value × Value → Except String (Value × Value)}
    (hf : ∀ kv b, f kv = .ok b → b.1 = kv.1) :
    ∀ {l r : List (Value × Value)}, mapME f l = .ok r →
      r.map Prod.fst = l.map Prod.fst := by
  intro l
  induction l with
  | nil =>
    intro r h
    simp only [mapME] at h
    injection h with h
    subst h
    rfl
  | cons kv t ih =>
    intro r h
    simp only [mapME] at h
    cases hfx : f kv with
    | error e => rw [hfx] at h; exact absurd h (by simp)
    | ok b =>
      rw [hfx] at h
      cases hrest : mapME f t with
      | error e => rw [hrest] at h; exact absurd h (by simp)
      | ok bs =>
        rw [hrest] at h
        injection h with h
        subst h
        simp [hf kv b hfx, ih hrest]

theorem sortKey_str_inv {k : Value} {s : Str}
    (h : sortKey k = sortKey (.str s)) : k = .str s := by
  cases k with
  | str t =>
    simp only [sortKey, string_value] at h
    rw [WithBot.coe_inj] at h
    rw [h]
  | null => exact absurd h (by simp [sortKey, string_value])
  | bool b => exact absurd h (by simp [sortKey, string_value])
  | number n => exact absurd h (by simp [sortKey, string_value])
  | seq l => exact absurd h (by simp [sortKey, string_value])
  | mapping m => exact absurd h (by simp [sortKey, string_value])
  | tagged => exact absurd h (by simp [sortKey, string_value])

/-- Lists of all-string keys with equal sort-key columns are equal. -/
theorem keys_eq_of_sortKey_eq :
    ∀ (l1 l2 : List Value), l1.map sortKey = l2.map sortKey →
      (∀ k ∈ l1, ∃ s, k = Value.str s) → l1 = l2 := by
  intro l1
  induction l1 with
  | nil =>
    intro l2 h _
    cases l2 with
    | nil => rfl
    | cons k2 t2 => simp at h
  | cons k1 t1 ih =>
    intro l2 h hstr
    cases l2 with
    | nil => simp at h
    | cons k2 t2 =>
      simp only [List.map_cons, List.cons.injEq] at h
      obtain ⟨hk, ht⟩ := h
      obtain ⟨s, rfl⟩ := hstr k1 (List.mem_cons_self _ _)
      have hk2 : k2 = Value.str s := sortKey_str_inv hk.symm
      subst hk2
      rw [ih t2 ht (fun k hk => hstr k (List.mem_cons_of_mem _ hk))]

/-- C3 fails as stated for mappings whose keys are not strings: all such
keys share the empty textual representation, the sort is stable, and so
the output key order still depends on the source order, as two permuted
number-keyed mappings show. -/
theorem c3_counterexample :
    expand 2 (.mapping [(.number 1, .null), (.number 2, .null)]) ⟨⟨[], []⟩, []⟩
      = .ok (.mapping [(.number 1, .null), (.number 2, .null)])
    ∧ expand 2 (.mapping [(.number 2, .null), (.number 1, .null)]) ⟨⟨[], []⟩, []⟩
      = .ok (.mapping [(.number 2, .null), (.number 1, .null)])
    ∧ List.Perm [((Value.number 1), Value.null), (Value.number 2, Value.null)]
        [((Value.number 2), Value.null), (Value.number 1, Value.null)]
    ∧ List.map Prod.fst [((Value.number 1), Value.null), (Value.number 2, Value.null)]
      ≠ List.map Prod.fst [((Value.number 2), Value.null), (Value.number 1, Value.null)] :=
  ⟨rfl, rfl, List.Perm.swap _ _ _, by simp⟩

/-- C3 (amended): expansion of a Mapping expands the keys, stably sorts
the entries by `string_value` of the expanded key, then expands the
values; the output key column is always sorted by that textual key, and
whenever the expanded keys are all strings the output key order is
determined by the expanded key strings alone, independent of source
declaration order. -/
theorem c3_mapping_sort :
    (∀ (fuel : Nat) (env : Environment) (l m : List (Value × Value)),
       expand fuel (.mapping l) env = .ok (.mapping m) →
       List.Pairwise (fun a b => a ≤ b) (m.map (fun kv => sortKey kv.1)))
    ∧ (∀ (fuel : Nat) (env : Environment) (l1 l2 m1 m2 : List (Value × Value)),
       l1.Perm l2 →
       expand fuel (.mapping l1) env = .ok (.mapping m1) →
       expand fuel (.mapping l2) env = .ok (.mapping m2) →
       (∀ k ∈ m1.map Prod.fst, ∃ s, k = Value.str s) →
       m1.map Prod.fst = m2.map Prod.fst) := by
  have hvf : ∀ (fuel : Nat) (env : Environment) (kv b : Value × Value),
      (match expand fuel kv.2 env with
       | .error e => .error e
       | .ok v' => .ok (kv.1, v')) = Except.ok b → b.1 = kv.1 := by
    intro fuel env kv b h
    cases hex : expand fuel kv.2 env with
    | error e => rw [hex] at h; exact absurd h (by simp)
    | ok v' =>
      rw [hex] at h
      injection h with h
      subst h
      rfl
  constructor
  · intro fuel env l m h1
    cases fuel with
    | zero => exact absurd h1 (by simp [expand])
    | succ f =>
      simp only [expand] at h1
      split at h1
      · exact absurd h1 (by simp)
      · rename_i keyed hk1
        split at h1
        · exact absurd h1 (by simp)
        · rename_i done hv1
          injection h1 with h1
          injection h1 with h1
          subst h1
          have hfst := mapME_fst (hvf f env) hv1
          have hpw := insSort_pairwise entryLe_total entryLe_trans keyed
          have hmap : (insSort entryLe keyed).Pairwise
              (fun a b => sortKey a.1 ≤ sortKey b.1) := by
            refine hpw.imp ?_
            intro a b hab
            simpa [entryLe, decide_eq_true_eq] using hab
          have : (done.map (fun kv => sortKey kv.1))
              = ((insSort entryLe keyed).map (fun kv => sortKey kv.1)) := by
            have h1' : done.map (fun kv => sortKey kv.1)
                = (done.map Prod.fst).map sortKey := by
              simp [List.map_map, Function.comp]
            have h2' : ((insSort entryLe keyed).map (fun kv => sortKey kv.1))
                = ((insSort entryLe keyed).map Prod.fst).map sortKey := by
              simp [List.map_map, Function.comp]
            rw [h1', h2', hfst]
          rw [this]
          exact hmap.map _ (fun a b hab => hab)
  · intro fuel env l1 l2 m1 m2 hperm h1 h2 hstr
    cases fuel with
    | zero => exact absurd h1 (by simp [expand])
    | succ f =>
      simp only [expand] at h1 h2
      split at h1
      · exact absurd h1 (by simp)
      · rename_i keyed1 hk1
        split at h1
        · exact absurd h1 (by simp)
        · rename_i done1 hv1
          injection h1 with h1
          injection h1 with h1
          subst h1
          split at h2
          · exact absurd h2 (by simp)
          · rename_i keyed2 hk2
            split at h2
            · exact absurd h2 (by simp)
            · rename_i done2 hv2
              injection h2 with h2
              injection h2 with h2
              subst h2
              -- keyed1 ~ keyed2
              obtain ⟨keyed2', hk2', hpk⟩ := mapME_perm hperm hk1
              rw [hk2] at hk2'
              injection hk2' with hk2'
              subst hk2'
              -- the sorted sort-key columns coincide
              have hfst1 := mapME_fst (hvf f env) hv1
              have hfst2 := mapME_fst (hvf f env) hv2
              have hsorted : ∀ keyed : List (Value × Value),
                  ((insSort entryLe keyed).map (fun kv => sortKey kv.1)).Pairwise
                    (fun a b => a ≤ b) := by
                intro keyed
                refine (insSort_pairwise entryLe_total entryLe_trans keyed).map _ ?_
                intro a b hab
                simpa [entryLe, decide_eq_true_eq] using hab
              have hpermS : ((insSort entryLe keyed1).map (fun kv => sortKey kv.1)).Perm
                  ((insSort entryLe keyed2).map (fun kv => sortKey kv.1)) :=
                (((insSort_perm entryLe keyed1).trans hpk).trans
                  (insSort_perm entryLe keyed2).symm).map _
              haveI : IsAntisymm (WithBot Str) (fun a b => a ≤ b) :=
                ⟨fun a b h1 h2 => le_antisymm h1 h2⟩
              have hSeq : ((insSort entryLe keyed1).map (fun kv => sortKey kv.1))
                  = ((insSort entryLe keyed2).map (fun kv => sortKey kv.1)) :=
                List.eq_of_perm_of_sorted hpermS (hsorted keyed1) (hsorted keyed2)
              -- transfer to the key columns of the results
              have hcol : ∀ (done keyed : List (Value × Value)),
                  done.map Prod.fst = (insSort entryLe keyed).map Prod.fst →
                  (done.map Prod.fst).map sortKey
                    = (insSort entryLe keyed).map (fun kv => sortKey kv.1) := by
                intro done keyed hf
                rw [hf]
                simp [List.map_map, Function.comp]
              have hS : (done1.map Prod.fst).map sortKey
                  = (done2.map Prod.fst).map sortKey := by
                rw [hcol done1 keyed1 hfst1, hcol done2 keyed2 hfst2, hSeq]
              exact keys_eq_of_sortKey_eq _ _ hS hstr

/-- Witness for C3: the spec's example — source keys `(( b ))`, `(( a ))`
resolving to "zeta"/"alpha" come out in the order alpha, zeta, and the
permuted source yields the same key column. -/
theorem c3_witness :
    expand 8 (.mapping [(.str "(( b ))".data, .null), (.str "(( a ))".data, .bool true)])
        ⟨⟨[("a".data, Value.str "alpha".data), ("b".data, Value.str "zeta".data)], []⟩, []⟩
      = .ok (.mapping [(.str "alpha".data, .bool true), (.str "zeta".data, .null)])
    ∧ List.map Prod.fst [((Value.str "alpha".data), Value.bool true),
        ((Value.str "zeta".data), Value.null)]
      = List.map Prod.fst [((Value.str "alpha".data), Value.bool true),
        ((Value.str "zeta".data), Value.null)] :=
  ⟨rfl,
   c3_mapping_sort.2 8
     ⟨⟨[("a".data, Value.str "alpha".data), ("b".data, Value.str "zeta".data)], []⟩, []⟩
     [(.str "(( b ))".data, .null), (.str "(( a ))".data, .bool true)]
     [(.str "(( a ))".data, .bool true), (.str "(( b ))".data, .null)]
     [(.str "alpha".data, .bool true), (.str "zeta".data, .null)]
     [(.str "alpha".data, .bool true), (.str "zeta".data, .null)]
     (List.Perm.swap _ _ _) rfl rfl
     (by
       intro k hk
       simp only [List.map_cons, List.map_nil, List.mem_cons, List.not_mem_nil,
         or_false] at hk
       rcases hk with rfl | rfl
       · exact ⟨_, rfl⟩
       · exact ⟨_, rfl⟩)⟩

/-! ## Claim C8 — idempotence on token-free documents -/

/-- An effectful map whose closure succeeds pointwise is a plain map. -/
theorem mapME_congr {f : α → Except String β} {g : α → β} :
    ∀ {l : List α}, (∀ a ∈ l, f a = .ok (g a)) → mapME f l = .ok (l.map g) := by
  intro l
  induction l with
  | nil => intro _; rfl
  | cons a t ih =>
    intro h
    simp only [mapME, h a (List.mem_cons_self _ _),
      ih (fun b hb => h b (List.mem_cons_of_mem _ hb)), List.map_cons]

theorem tokenFreeL_mem : ∀ {l : List Value} {v : Value},
    tokenFreeL l = true → v ∈ l → tokenFree v = true := by
  intro l
  induction l with
  | nil => intro v _ h; exact absurd h (by simp)
  | cons a t ih =>
    intro v h hm
    simp only [tokenFreeL, Bool.and_eq_true] at h
    rcases List.mem_cons.mp hm with rfl | hm
    · exact h.1
    · exact ih h.2 hm

theorem tokenFreeP_mem : ∀ {m : List (Value × Value)} {kv : Value × Value},
    tokenFreeP m = true → kv ∈ m →
    tokenFree kv.1 = true ∧ tokenFree kv.2 = true := by
  intro m
  induction m with
  | nil => intro kv _ h; exact absurd h (by simp)
  | cons hd t ih =>
    obtain ⟨k, v⟩ := hd
    intro kv h hm
    simp only [tokenFreeP, Bool.and_eq_true] at h
    rcases List.mem_cons.mp hm with rfl | hm
    · exact ⟨h.1.1, h.1.2⟩
    · exact ih h.2 hm

theorem vheightL_mem : ∀ {l : List Value} {v : Value},
    v ∈ l → vheight v ≤ vheightL l := by
  intro l
  induction l with
  | nil => intro v h; exact absurd h (by simp)
  | cons a t ih =>
    intro v h
    simp only [vheightL]
    rcases List.mem_cons.mp h with rfl | h
    · exact Nat.le_max_left _ _
    · exact le_trans (ih h) (Nat.le_max_right _ _)

theorem vheightP_mem : ∀ {m : List (Value × Value)} {kv : Value × Value},
    kv ∈ m → vheight kv.1 ≤ vheightP m ∧ vheight kv.2 ≤ vheightP m := by
  intro m
  induction m with
  | nil => intro kv h; exact absurd h (by simp)
  | cons hd t ih =>
    obtain ⟨k, v⟩ := hd
    intro kv h
    simp only [vheightP]
    rcases List.mem_cons.mp h with rfl | h
    · exact ⟨le_trans (Nat.le_max_left _ _) (Nat.le_max_left _ _),
        le_trans (Nat.le_max_right _ _) (Nat.le_max_left _ _)⟩
    · exact ⟨le_trans (ih h).1 (Nat.le_max_right _ _),
        le_trans (ih h).2 (Nat.le_max_right _ _)⟩

theorem vheight_pos : ∀ (v : Value), 1 ≤ vheight v := by
  intro v
  cases v <;> simp [vheight]

theorem sortOnlyL_map : ∀ l : List Value, sortOnlyL l = l.map sortOnly := by
  intro l
  induction l with
  | nil => rfl
  | cons a t ih => simp only [sortOnlyL, ih, List.map_cons]

theorem sortOnlyP_map : ∀ m : List (Value × Value),
    sortOnlyP m = m.map (fun kv => (sortOnly kv.1, sortOnly kv.2)) := by
  intro m
  induction m with
  | nil => rfl
  | cons hd t ih =>
    obtain ⟨k, v⟩ := hd
    simp only [sortOnlyP, ih, List.map_cons]

/-- Because `entryLe` only reads keys, a value-only transformation commutes
with the insertion step. -/
theorem ordInsert_entryLe_map_snd (g : Value → Value) (a : Value × Value) :
    ∀ l, ordInsert entryLe (a.1, g a.2) (l.map (fun kv => (kv.1, g kv.2)))
      = (ordInsert entryLe a l).map (fun kv => (kv.1, g kv.2)) := by
  intro l
  induction l with
  | nil => rfl
  | cons b t ih =>
    simp only [List.map_cons, ordInsert]
    have hle : entryLe (a.1, g a.2) (b.1, g b.2) = entryLe a b := rfl
    rw [hle]
    by_cases h : entryLe a b = true
    · rw [if_pos h, if_pos h]
      simp
    · rw [if_neg h, if_neg h]
      simp [ih]

/-- A value-only transformation commutes with the key-based sort. -/
theorem insSort_entryLe_map_snd (g : Value → Value) :
    ∀ l, insSort entryLe (l.map (fun kv => (kv.1, g kv.2)))
      = (insSort entryLe l).map (fun kv => (kv.1, g kv.2)) := by
  intro l
  induction l with
  | nil => rfl
  | cons a t ih =>
    simp only [List.map_cons, insSort, ih]
    exact ordInsert_entryLe_map_snd g a (insSort entryLe t)

/-- C8: expansion of a document containing no reference token succeeds
and returns the parsed input unchanged except for the deterministic
re-sorting of mapping entries at every level. -/
theorem c8_idempotent_token_free :
    ∀ (fuel : Nat) (v : Value) (env : Environment),
      tokenFree v = true → vheight v ≤ fuel →
      expand fuel v env = .ok (sortOnly v) := by
  intro fuel
  induction fuel using Nat.strong_induction_on with
  | _ fuel ih =>
    intro v env htf hh
    cases fuel with
    | zero =>
      have := vheight_pos v
      omega
    | succ f =>
      cases v with
      | null => simp [expand, sortOnly]
      | bool b => simp [expand, sortOnly]
      | number n => simp [expand, sortOnly]
      | tagged => simp [tokenFree] at htf
      | str s =>
        simp only [tokenFree, Bool.and_eq_true, Option.isNone_iff_eq_none] at htf
        obtain ⟨hfind, hparse⟩ := htf
        have hf : 2 ≤ f := by
          simp only [vheight] at hh
          omega
        obtain ⟨f1, rfl⟩ : ∃ f1, f = f1 + 1 := ⟨f - 1, by omega⟩
        obtain ⟨f2, rfl⟩ : ∃ f2, f1 = f2 + 1 := ⟨f1 - 1, by omega⟩
        simp only [expand, expand_string, substAll, hparse, hfind, sortOnly]
      | seq l =>
        simp only [tokenFree] at htf
        have hh' : vheightL l ≤ f := by
          simp only [vheight] at hh
          omega
        simp only [expand]
        rw [mapME_congr (g := sortOnly) (fun c hc =>
          ih f (by omega) c env (tokenFreeL_mem htf hc)
            (le_trans (vheightL_mem hc) hh'))]
        simp [sortOnly, sortOnlyL_map]
      | mapping m =>
        simp only [tokenFree] at htf
        have hh' : vheightP m ≤ f := by
          simp only [vheight] at hh
          omega
        have h1 : mapME (fun kv : Value × Value =>
            match expand f kv.1 env with
            | .error e => .error e
            | .ok k' => .ok (k', kv.2)) m
            = .ok (m.map (fun kv => (sortOnly kv.1, kv.2))) := by
          apply mapME_congr
          intro kv hkv
          simp only [ih f (by omega) kv.1 env (tokenFreeP_mem htf hkv).1
            (le_trans (vheightP_mem hkv).1 hh')]
        have h2 : mapME (fun kv : Value × Value =>
            match expand f kv.2 env with
            | .error e => .error e
            | .ok v' => .ok (kv.1, v'))
            (insSort entryLe (m.map (fun kv => (sortOnly kv.1, kv.2))))
            = .ok ((insSort entryLe (m.map (fun kv => (sortOnly kv.1, kv.2)))).map
                (fun kv => (kv.1, sortOnly kv.2))) := by
          apply mapME_congr
          intro kv hkv
          have hkv' := (insSort_perm entryLe _).mem_iff.mp hkv
          obtain ⟨kv0, hkv0, rfl⟩ := List.mem_map.mp hkv'
          simp only [ih f (by omega) kv0.2 env (tokenFreeP_mem htf hkv0).2
            (le_trans (vheightP_mem hkv0).2 hh')]
        simp only [expand, h1, h2, sortOnly, sortOnlyP_map]
        rw [show (m.map fun kv => ((sortOnly kv.1), sortOnly kv.2))
            = (m.map fun kv => ((sortOnly kv.1), kv.2)).map (fun kv => (kv.1, sortOnly kv.2)) by
          simp [List.map_map, Function.comp]]
        rw [insSort_entryLe_map_snd]

/-- Witness for C8: a token-free two-entry mapping expands to itself with
the entries re-sorted by key. -/
theorem c8_witness :
    tokenFree (.mapping [(.str "b".data, .number 2),
        (.str "a".data, .seq [.str "x".data])]) = true
    ∧ vheight (.mapping [(.str "b".data, .number 2),
        (.str "a".data, .seq [.str "x".data])]) ≤ 5
    ∧ expand 5 (.mapping [(.str "b".data, .number 2),
        (.str "a".data, .seq [.str "x".data])]) ⟨⟨[], []⟩, []⟩
      = .ok (sortOnly (.mapping [(.str "b".data, .number 2),
          (.str "a".data, .seq [.str "x".data])]))
    ∧ sortOnly (.mapping [(.str "b".data, .number 2),
        (.str "a".data, .seq [.str "x".data])])
      = .mapping [(.str "a".data, .seq [.str "x".data]), (.str "b".data, .number 2)] :=
  ⟨rfl, by decide,
   c8_idempotent_token_free 5 _ ⟨⟨[], []⟩, []⟩ rfl (by decide),
   rfl⟩

end ConfigMangler
